import Mathlib

/-!
# go-forceexport: lookup of functions by name and rebinding of function values

A shallow embedding of `go114/forceexport.go` (the implementation for go1.14 and
go1.15), of the dispatcher `forceexport.go`, and of the helper `FuncName` of
`forceexport_test.go`.

Conventions of the embedding.

* `uintptr` values are natural numbers; the code does no arithmetic on them.
* A Go call either returns or panics; `Outcome` records which. A panic value is
  either a value of an `error` type (runtime errors such as an index out of
  range or an invalid memory address are of this kind) or some other value.
* The functions of the Go standard library that the code calls on the
  program image (`(*runtime.Func).Entry`, `runtime.FuncForPC`, the name stored
  for a non-nil `*runtime.Func`) are the fields of `Runtime`, so every theorem
  holds for every behaviour of them, faults included.
* The module chain is the value `Firstmoduledata` with its `next` links; the
  fields of `Moduledata` that the code never reads are left out.
* Function variables and the function values they point to live in `Mem`.
-/

set_option autoImplicit false

/-! ## Go values shared by all packages -/

/-- An `error` value, identified by its message. -/
abbrev GoError := String

/-- The value a panic carries: an `error`, or a value of another type. -/
inductive PanicValue where
  | error (e : GoError)
  | other (v : String)
deriving DecidableEq, Repr

/-- The result of running a Go call: it returns a value or it panics. -/
inductive Outcome (α : Type) where
  | ret (a : α)
  | panic (v : PanicValue)
deriving DecidableEq, Repr

/-- Sequencing of calls: a panic of the first call skips the second. -/
def Outcome.bind {α β : Type} : Outcome α → (α → Outcome β) → Outcome β
  | .ret a, k => k a
  | .panic v, _ => .panic v

/-- A `*runtime.Func` obtained as `&pclntable[off]`: a position in a module's
`pclntable`. -/
structure FuncPtr where
  pclntable : List Nat
  off : Nat
deriving DecidableEq, Repr

/-- The part of the Go runtime the code calls.
`Entry` is `(*runtime.Func).Entry` on a non-nil receiver, `FuncForPC` is
`runtime.FuncForPC` (`none` is the nil `*Func`), `funcname` is the name the
runtime has for a non-nil `*Func`, and `makeFuncStub` is the code address
`reflect.MakeFunc` puts into the function values it creates. -/
structure Runtime where
  Entry : FuncPtr → Outcome Nat
  FuncForPC : Nat → Outcome (Option FuncPtr)
  funcname : FuncPtr → Outcome String
  makeFuncStub : Nat

/-- Source: `(*runtime.Func).Name`: the runtime returns the empty string for a nil
receiver (the "proper nil *Func, that .Name() understands" of the comment in
`getFuncName`) and the recorded name otherwise. -/
def Runtime.Name (rt : Runtime) : Option FuncPtr → Outcome String
  | none => .ret ""
  | some f => rt.funcname f

/-! ## Function variables and function values -/

/-- A function type, identified by its signature. -/
abbrev FuncType := String

/-- The heap object behind a function value. As the source says of `Func`:
"The actual struct has other values, but always starts with a code pointer." -/
structure Func where
  codePtr : Nat
  ftyp : FuncType
deriving DecidableEq, Repr

/-- A variable of function type: its static type and its value, which is nil
(`none`) or the address of a `Func` object. -/
structure FuncVar where
  typ : FuncType
  val : Option Nat
deriving DecidableEq, Repr

/-- The memory the rebinding code works on: function objects by address and
function variables by index. -/
structure Mem where
  heap : List Func
  vars : List FuncVar
deriving DecidableEq, Repr

/-- What can be passed as `outFuncPtr interface{}`: a pointer to the function
variable number `v`, a pointer to a variable whose type is not a function
type, or a value that is no pointer, of the given kind ("zero" for the nil
interface). -/
inductive Interface where
  | funcVar (v : Nat)
  | nonFuncVar
  | other (kind : String)
deriving DecidableEq, Repr

namespace reflect

/-- Source: `reflect.ValueOf(outFuncPtr).Elem()`: the variable pointed to,
`some v` for the function variable number `v` and `none` for a variable of
another type; for an argument that is no pointer reflect panics with a
`*reflect.ValueError`, an `error` whose message names the kind. -/
def Elem (mem : Mem) : Interface → Outcome (Option Nat)
  | .funcVar v =>
    if v < mem.vars.length then .ret (some v)
    else .panic (.error "reflect: call of reflect.Value.Type on zero Value")
  | .nonFuncVar => .ret none
  | .other kind =>
    .panic (.error ("reflect: call of reflect.Value.Elem on " ++ kind ++ " Value"))

/-- Source: `outFuncVal.Type()` of the function variable number `v`. -/
def typeOf (mem : Mem) (v : Nat) : FuncType :=
  match mem.vars[v]? with
  | some x => x.typ
  | none => ""

/-- Source: `reflect.MakeFunc(typ, nil)`: allocates a new function object of type
`typ` whose code pointer is the reflect stub, and returns its address. -/
def MakeFunc (rt : Runtime) (mem : Mem) (typ : FuncType) : Mem × Nat :=
  ({ mem with heap := mem.heap ++ [{ codePtr := rt.makeFuncStub, ftyp := typ }] },
    mem.heap.length)

/-- Source: `outFuncVal.Set(newFuncVal)`: the variable number `v` now points to the
function object at `addr`. -/
def Set (mem : Mem) (v : Nat) (addr : Nat) : Mem :=
  match mem.vars[v]? with
  | some x => { mem with vars := mem.vars.set v { x with val := some addr } }
  | none => mem

/-- Source: `reflect.ValueOf(f).Pointer()` for a function value `f`: 0 for a nil
function, otherwise the first word of the object, its code pointer. -/
def Pointer (mem : Mem) : Option Nat → Outcome Nat
  | none => .ret 0
  | some addr =>
    match mem.heap[addr]? with
    | some fn => .ret fn.codePtr
    | none => .panic (.error "runtime error: invalid memory address or nil pointer dereference")

end reflect

/-! ## Package go114 -/

namespace go114

/-- One element of `Moduledata.ftab`. -/
structure functab where
  entry : Nat
  funcoff : Nat
deriving DecidableEq, Repr

/-- The fields of `Moduledata` the package reads. -/
structure Moduledata where
  pclntable : List Nat
  ftab : List functab
  next : Option Moduledata
deriving Repr

/-- Source: `funcPtr.codePtr = codePtr` through the `*Func` view of the object at
`addr`. -/
def setCodePtr (mem : Mem) (addr : Nat) (codePtr : Nat) : Mem :=
  match mem.heap[addr]? with
  | some fn => { mem with heap := mem.heap.set addr { fn with codePtr := codePtr } }
  | none => mem

/-- Source: `CreateFuncForCodePtr(outFuncPtr, codePtr)`. When the variable
pointed to is not of a function type, `reflect.MakeFunc` panics with a string
before anything is allocated. -/
def CreateFuncForCodePtr (rt : Runtime) (mem : Mem) (outFuncPtr : Interface)
    (codePtr : Nat) : Outcome Unit × Mem :=
  match reflect.Elem mem outFuncPtr with
  | .panic v => (.panic v, mem)
  | .ret none => (.panic (.other "reflect: call of MakeFunc with non-Func type"), mem)
  | .ret (some outFuncVal) =>
    let (mem1, newFuncVal) := reflect.MakeFunc rt mem (reflect.typeOf mem outFuncVal)
    let funcValuePtr := newFuncVal
    let mem2 := setCodePtr mem1 funcValuePtr codePtr
    (.ret (), reflect.Set mem2 outFuncVal newFuncVal)

/-- Source: `(*runtime.Func)(unsafe.Pointer(&moduleData.pclntable[ftab.funcoff]))`:
the index expression is bounds-checked. -/
def funcAt (pclntable : List Nat) (ftab : functab) : Outcome FuncPtr :=
  if ftab.funcoff < pclntable.length then .ret ⟨pclntable, ftab.funcoff⟩
  else .panic (.error ("runtime error: index out of range [" ++ toString ftab.funcoff ++
    "] with length " ++ toString pclntable.length))

/-- The statements of `getFuncName` after the `defer`:
`f = runtime.FuncForPC(f.Entry()); funcName = f.Name()`. -/
def getFuncName.body (rt : Runtime) (f : FuncPtr) : Outcome String :=
  (rt.Entry f).bind fun pc => (rt.FuncForPC pc).bind fun g => rt.Name g

/-- Source: `getFuncName(f)` with its deferred `recover`: a panic whose value is an
`error` becomes the returned `err` (and `funcName` keeps its zero value), a
panic with any other value is answered by `panic("unexpect")`. -/
def getFuncName (rt : Runtime) (f : FuncPtr) : Outcome (String × Option GoError) :=
  match getFuncName.body rt f with
  | .ret funcName => .ret (funcName, none)
  | .panic (.error e) => .ret ("", some e)
  | .panic (.other _) => .panic (.other "unexpect")

/-- Source: `fmt.Errorf("Invalid function name: %s", name)`. -/
def invalidName (name : String) : GoError := "Invalid function name: " ++ name

/-- The inner loop of `FindFuncWithName` over one module's `ftab`: `some p`
when the loop executes `return f.Entry(), nil`, `none` when it runs out. -/
def FindFuncWithName.inner (rt : Runtime) (pclntable : List Nat) (name : String) :
    List functab → Outcome (Option Nat)
  | [] => .ret none
  | ftab :: rest =>
    (funcAt pclntable ftab).bind fun f =>
    (getFuncName rt f).bind fun r =>
    if r.2 = none ∧ r.1 = name then (rt.Entry f).bind fun p => .ret (some p)
    else FindFuncWithName.inner rt pclntable name rest

/-- The outer loop of `FindFuncWithName`, from the module `moduleData` on. -/
def FindFuncWithName.outer (rt : Runtime) (name : String) :
    Moduledata → Outcome (Nat × Option GoError)
  | ⟨pclntable, ftab, none⟩ =>
    (FindFuncWithName.inner rt pclntable name ftab).bind fun r =>
    match r with
    | some p => .ret (p, none)
    | none => .ret (0, some (invalidName name))
  | ⟨pclntable, ftab, some next⟩ =>
    (FindFuncWithName.inner rt pclntable name ftab).bind fun r =>
    match r with
    | some p => .ret (p, none)
    | none => FindFuncWithName.outer rt name next

/-- Source: `FindFuncWithName(name)`, the scan starting at `&Firstmoduledata`. -/
def FindFuncWithName (rt : Runtime) (Firstmoduledata : Moduledata) (name : String) :
    Outcome (Nat × Option GoError) :=
  FindFuncWithName.outer rt name Firstmoduledata

/-- The inner loop of `GetAllFuncName`, appending to `names`. -/
def GetAllFuncName.inner (rt : Runtime) (pclntable : List Nat) :
    List functab → List String → Outcome (List String)
  | [], names => .ret names
  | ftab :: rest, names =>
    (funcAt pclntable ftab).bind fun f =>
    (getFuncName rt f).bind fun r =>
    if r.2 = none then GetAllFuncName.inner rt pclntable rest (names ++ [r.1])
    else GetAllFuncName.inner rt pclntable rest names

/-- The outer loop of `GetAllFuncName`, from the module `moduleData` on. -/
def GetAllFuncName.outer (rt : Runtime) : Moduledata → List String → Outcome (List String)
  | ⟨pclntable, ftab, none⟩, names => GetAllFuncName.inner rt pclntable ftab names
  | ⟨pclntable, ftab, some next⟩, names =>
    (GetAllFuncName.inner rt pclntable ftab names).bind fun names1 =>
    GetAllFuncName.outer rt next names1

/-- Source: `GetAllFuncName()`; `names` starts as the nil slice. -/
def GetAllFuncName (rt : Runtime) (Firstmoduledata : Moduledata) : Outcome (List String) :=
  GetAllFuncName.outer rt Firstmoduledata []

/-- Source: `GetFunc(outFuncPtr, name)`. -/
def GetFunc (rt : Runtime) (Firstmoduledata : Moduledata) (mem : Mem)
    (outFuncPtr : Interface) (name : String) : Outcome (Option GoError) × Mem :=
  match FindFuncWithName rt Firstmoduledata name with
  | .panic v => (.panic v, mem)
  | .ret (codePtr, err) =>
    if err ≠ none then (.ret err, mem)
    else
      match CreateFuncForCodePtr rt mem outFuncPtr codePtr with
      | (.panic v, mem1) => (.panic v, mem1)
      | (.ret _, mem1) => (.ret none, mem1)

end go114

/-! ## The dispatcher (package forceexport) -/

namespace forceexport

/-- The three operations of package go116, whose source is not part of this
development, as the dispatcher calls them. -/
structure Package where
  GetFunc : Mem → Interface → String → Outcome (Option GoError) × Mem
  CreateFuncForCodePtr : Mem → Interface → Nat → Outcome Unit × Mem
  FindFuncWithName : String → Outcome (Nat × Option GoError)

/-- The dispatcher's `GetFunc(outFuncPtr, name)`. -/
def GetFunc (GoVersion : String) (rt : Runtime) (Firstmoduledata : go114.Moduledata)
    (go116 : Package) (mem : Mem) (outFuncPtr : Interface) (name : String) :
    Outcome (Option GoError) × Mem :=
  if GoVersion = "go1.14" ∨ GoVersion = "go1.15" then
    go114.GetFunc rt Firstmoduledata mem outFuncPtr name
  else if GoVersion = "go1.16" then go116.GetFunc mem outFuncPtr name
  else (.panic (.other ("Not suitable for " ++ GoVersion)), mem)

/-- The dispatcher's `CreateFuncForCodePtr(outFuncPtr, codePtr)`. -/
def CreateFuncForCodePtr (GoVersion : String) (rt : Runtime) (go116 : Package) (mem : Mem)
    (outFuncPtr : Interface) (codePtr : Nat) : Outcome Unit × Mem :=
  if GoVersion = "go1.14" ∨ GoVersion = "go1.15" then
    go114.CreateFuncForCodePtr rt mem outFuncPtr codePtr
  else if GoVersion = "go1.16" then go116.CreateFuncForCodePtr mem outFuncPtr codePtr
  else (.panic (.other ("Not suitable for " ++ GoVersion)), mem)

/-- The dispatcher's `FindFuncWithName(name)`. -/
def FindFuncWithName (GoVersion : String) (rt : Runtime) (Firstmoduledata : go114.Moduledata)
    (go116 : Package) (name : String) : Outcome (Nat × Option GoError) :=
  if GoVersion = "go1.14" ∨ GoVersion = "go1.15" then
    go114.FindFuncWithName rt Firstmoduledata name
  else if GoVersion = "go1.16" then go116.FindFuncWithName name
  else .panic (.other ("Not suitable for " ++ GoVersion))

/-- Source: `FuncName(f)` of the tests:
`runtime.FuncForPC(reflect.ValueOf(f).Pointer()).Name()`. -/
def FuncName (rt : Runtime) (mem : Mem) (f : Option Nat) : Outcome String :=
  (reflect.Pointer mem f).bind fun pc => (rt.FuncForPC pc).bind fun g => rt.Name g

end forceexport

/-! ## The scan order, for stating the properties -/

namespace go114

/-- The function-table entries of the chain in scan order (modules along
`next`, each module's `ftab` in order), each with the `pclntable` of its
module. -/
def Moduledata.entries : Moduledata → List (List Nat × functab)
  | ⟨pclntable, ftab, none⟩ => ftab.map fun e => (pclntable, e)
  | ⟨pclntable, ftab, some next⟩ => (ftab.map fun e => (pclntable, e)) ++ next.entries

/-- What the loop body gets for one entry: the function record is located and
then handed to `getFuncName`. -/
def decodeName (rt : Runtime) (e : List Nat × functab) : Outcome (String × Option GoError) :=
  (funcAt e.1 e.2).bind fun f => getFuncName rt f

/-- The value of `f.Entry()` for the function record of an entry. -/
def entryAddr (rt : Runtime) (e : List Nat × functab) : Outcome Nat :=
  (funcAt e.1 e.2).bind fun f => rt.Entry f

/-- The entry decodes to `name`: `getFuncName` returns `name` and a nil error. -/
def decodesTo (rt : Runtime) (e : List Nat × functab) (name : String) : Prop :=
  decodeName rt e = .ret (name, none)

instance (rt : Runtime) (e : List Nat × functab) (name : String) :
    Decidable (decodesTo rt e name) := by
  unfold decodesTo; infer_instance

/-- The entry is located and decoded without a panic leaving `getFuncName`. -/
def scans (rt : Runtime) (e : List Nat × functab) : Prop :=
  ∃ r, decodeName rt e = .ret r

/-- The search of `FindFuncWithName` over a list of entries. -/
def findFlat (rt : Runtime) (name : String) : List (List Nat × functab) → Outcome (Option Nat)
  | [] => .ret none
  | e :: rest =>
    (decodeName rt e).bind fun r =>
    if r.2 = none ∧ r.1 = name then (entryAddr rt e).bind fun p => .ret (some p)
    else findFlat rt name rest

/-- The collection of `GetAllFuncName` over a list of entries. -/
def namesFlat (rt : Runtime) : List (List Nat × functab) → List String → Outcome (List String)
  | [], names => .ret names
  | e :: rest, names =>
    (decodeName rt e).bind fun r =>
    if r.2 = none then namesFlat rt rest (names ++ [r.1]) else namesFlat rt rest names

/-- How `FindFuncWithName` ends once the loops are over. -/
def findResult (name : String) : Option Nat → Outcome (Nat × Option GoError)
  | some p => .ret (p, none)
  | none => .ret (0, some (invalidName name))

end go114

/-! ## Sample program images -/

namespace go114

/-- A `pclntable` of four bytes. -/
def demoPcln : List Nat := [0, 0, 0, 0]

/-- A runtime over `demoPcln`: the records at offsets 0 and 1 are the functions
`main.main` (entry 100) and `main.addOne` (entry 116); the record at offset 3
has the entry address 132, the end of the text, which belongs to no module,
so `FuncForPC` returns a nil `*Func` for it. -/
def demoRt : Runtime where
  Entry f := if f.off = 0 then .ret 100 else if f.off = 1 then .ret 116 else .ret 132
  FuncForPC pc :=
    if pc = 100 then .ret (some ⟨demoPcln, 0⟩)
    else if pc = 116 then .ret (some ⟨demoPcln, 1⟩) else .ret none
  funcname f := if f.off = 0 then .ret "main.main" else .ret "main.addOne"
  makeFuncStub := 7

/-- A single module with two functions and the sentinel entry at the end. -/
def demoMd : Moduledata := ⟨demoPcln, [⟨100, 0⟩, ⟨116, 1⟩, ⟨132, 3⟩], none⟩

/-- The sentinel entry of `demoMd`. -/
def demoSentinel : List Nat × functab := (demoPcln, ⟨132, 3⟩)

/-- As `demoRt`, but reading the entry of the record at offset 0 faults with a
runtime error. -/
def segvRt : Runtime :=
  { demoRt with
    Entry := fun f =>
      if f.off = 0 then
        .panic (.error "runtime error: invalid memory address or nil pointer dereference")
      else demoRt.Entry f }

/-- As `demoRt`, but every `Entry` call panics with a value that is not an
`error`. -/
def stringPanicRt : Runtime :=
  { demoRt with Entry := fun _ => .panic (.other "not an error value") }

/-- A module whose only entry has a `funcoff` outside its (empty) `pclntable`. -/
def badOffsetMd : Moduledata := ⟨[], [⟨100, 0⟩], none⟩

/-- The sample module with a last entry whose `funcoff` is outside the
`pclntable`. -/
def lateFaultMd : Moduledata := ⟨demoPcln, [⟨100, 0⟩, ⟨116, 1⟩, ⟨100, 9999⟩], none⟩

/-- A module whose first entry has a `funcoff` outside the `pclntable` and
whose second entry is the function `main.main`. -/
def earlyFaultMd : Moduledata := ⟨demoPcln, [⟨100, 9999⟩, ⟨100, 0⟩], none⟩

/-- A memory with one function object (code pointer 116) and two function
variables: the first is nil, the second points to that object. -/
def demoMem : Mem :=
  { heap := [{ codePtr := 116, ftyp := "func(int) int" }],
    vars := [{ typ := "func(int) int", val := none },
             { typ := "func(int) int", val := some 0 }] }

end go114

namespace forceexport

/-- A stand-in for package go116 that answers every call with a panic of its
own. -/
def stub116 : Package where
  GetFunc mem _ _ := (.panic (.other "go116.GetFunc"), mem)
  CreateFuncForCodePtr mem _ _ := (.panic (.other "go116.CreateFuncForCodePtr"), mem)
  FindFuncWithName _ := .panic (.other "go116.FindFuncWithName")

end forceexport

/-! ## Lemmas on the scan -/

namespace go114

theorem inner_eq_findFlat (rt : Runtime) (pclntable : List Nat) (name : String)
    (ftab : List functab) :
    FindFuncWithName.inner rt pclntable name ftab =
      findFlat rt name (ftab.map fun e => (pclntable, e)) := by
  induction ftab with
  | nil => rfl
  | cons ft rest ih =>
    simp only [FindFuncWithName.inner, List.map_cons, findFlat, decodeName, entryAddr]
    cases h : funcAt pclntable ft with
    | panic v => simp [Outcome.bind]
    | ret f =>
      simp only [Outcome.bind]
      cases hg : getFuncName rt f with
      | panic v => rfl
      | ret r => simp only [ih]

theorem findFlat_append (rt : Runtime) (name : String) (xs ys : List (List Nat × functab)) :
    findFlat rt name (xs ++ ys) =
      (findFlat rt name xs).bind fun r =>
        match r with
        | some p => .ret (some p)
        | none => findFlat rt name ys := by
  induction xs with
  | nil => simp [findFlat, Outcome.bind]
  | cons e rest ih =>
    simp only [List.cons_append, findFlat]
    cases hd : decodeName rt e with
    | panic v => rfl
    | ret r =>
      simp only [Outcome.bind]
      split
      · cases entryAddr rt e <;> rfl
      · exact ih

theorem outer_eq_findFlat (rt : Runtime) (name : String) (md : Moduledata) :
    FindFuncWithName.outer rt name md = (findFlat rt name md.entries).bind (findResult name) := by
  induction md using FindFuncWithName.outer.induct rt name with
  | case1 pclntable ftab =>
    simp only [FindFuncWithName.outer, Moduledata.entries, inner_eq_findFlat]
    cases findFlat rt name (ftab.map fun e => (pclntable, e)) with
    | panic v => rfl
    | ret r => cases r <;> rfl
  | case2 pclntable ftab next ih =>
    simp only [FindFuncWithName.outer, Moduledata.entries, inner_eq_findFlat, findFlat_append]
    cases findFlat rt name (ftab.map fun e => (pclntable, e)) with
    | panic v => rfl
    | ret r =>
      cases r with
      | some p => rfl
      | none => simpa [Outcome.bind] using ih

end go114

namespace go114

theorem getFuncName_nil_iff (rt : Runtime) (f : FuncPtr) (n : String) :
    getFuncName rt f = .ret (n, none) ↔ getFuncName.body rt f = .ret n := by
  unfold getFuncName
  cases h : getFuncName.body rt f with
  | ret m => simp
  | panic v => cases v <;> simp

theorem body_ret (rt : Runtime) (f : FuncPtr) (n : String)
    (h : getFuncName.body rt f = .ret n) :
    ∃ pc, rt.Entry f = .ret pc ∧ ((rt.FuncForPC pc).bind fun g => rt.Name g) = .ret n := by
  unfold getFuncName.body at h
  cases hE : rt.Entry f with
  | panic v => rw [hE] at h; simp [Outcome.bind] at h
  | ret pc => rw [hE] at h; exact ⟨pc, rfl, h⟩

theorem decodesTo_iff (rt : Runtime) (e : List Nat × functab) (name : String) :
    decodesTo rt e name ↔
      ∃ f, funcAt e.1 e.2 = .ret f ∧ getFuncName rt f = .ret (name, none) := by
  unfold decodesTo decodeName
  cases h : funcAt e.1 e.2 with
  | panic v => simp [Outcome.bind]
  | ret f => simp [Outcome.bind]

theorem decodesTo_entryAddr (rt : Runtime) (e : List Nat × functab) (name : String)
    (h : decodesTo rt e name) :
    ∃ p, entryAddr rt e = .ret p ∧ ((rt.FuncForPC p).bind fun g => rt.Name g) = .ret name := by
  obtain ⟨f, hf, hg⟩ := (decodesTo_iff rt e name).1 h
  obtain ⟨pc, hpc, hn⟩ := body_ret rt f name ((getFuncName_nil_iff rt f name).1 hg)
  exact ⟨pc, by simp [entryAddr, hf, Outcome.bind, hpc], hn⟩

theorem findFlat_cons_decodes (rt : Runtime) (name : String) (e : List Nat × functab)
    (rest : List (List Nat × functab)) (h : decodesTo rt e name) :
    findFlat rt name (e :: rest) = (entryAddr rt e).bind fun p => .ret (some p) := by
  unfold decodesTo at h
  simp [findFlat, h, Outcome.bind]

theorem findFlat_cons_skip (rt : Runtime) (name : String) (e : List Nat × functab)
    (rest : List (List Nat × functab)) (hs : scans rt e) (h : ¬ decodesTo rt e name) :
    findFlat rt name (e :: rest) = findFlat rt name rest := by
  obtain ⟨r, hr⟩ := hs
  unfold decodesTo at h
  rw [hr] at h
  have hne : ¬ (r.2 = none ∧ r.1 = name) := by
    rintro ⟨h2, h1⟩
    apply h
    obtain ⟨a, b⟩ := r
    simp only at h1 h2
    subst h1 h2
    rfl
  simp [findFlat, hr, Outcome.bind, hne]

theorem findFlat_cons_ret (rt : Runtime) (name : String) (e : List Nat × functab)
    (rest : List (List Nat × functab)) (r : Option Nat)
    (h : findFlat rt name (e :: rest) = .ret r) : scans rt e := by
  unfold scans
  cases hd : decodeName rt e with
  | ret x => exact ⟨x, rfl⟩
  | panic v => simp [findFlat, hd, Outcome.bind] at h

/-- The search finds nothing exactly when every entry is scanned and none
decodes to the name. -/
theorem findFlat_none_iff (rt : Runtime) (name : String) (es : List (List Nat × functab)) :
    findFlat rt name es = .ret none ↔ ∀ e ∈ es, scans rt e ∧ ¬ decodesTo rt e name := by
  induction es with
  | nil => simp [findFlat]
  | cons e rest ih =>
    constructor
    · intro h
      have hs := findFlat_cons_ret rt name e rest none h
      by_cases hd : decodesTo rt e name
      · rw [findFlat_cons_decodes rt name e rest hd] at h
        obtain ⟨p, hp, _⟩ := decodesTo_entryAddr rt e name hd
        simp [hp, Outcome.bind] at h
      · rw [findFlat_cons_skip rt name e rest hs hd] at h
        intro x hx
        rcases List.mem_cons.1 hx with rfl | hx
        · exact ⟨hs, hd⟩
        · exact ih.1 h x hx
    · intro h
      have he := h e (List.mem_cons_self _ _)
      rw [findFlat_cons_skip rt name e rest he.1 he.2]
      exact ih.2 fun x hx => h x (List.mem_cons_of_mem _ hx)

/-- The search returns the address of the first entry that decodes to the name,
when the entries before it are scanned. -/
theorem findFlat_first (rt : Runtime) (name : String)
    (pre post : List (List Nat × functab)) (e : List Nat × functab)
    (hpre : ∀ x ∈ pre, scans rt x ∧ ¬ decodesTo rt x name) (he : decodesTo rt e name) :
    ∃ p, entryAddr rt e = .ret p ∧ findFlat rt name (pre ++ e :: post) = .ret (some p) := by
  induction pre with
  | nil =>
    obtain ⟨p, hp, _⟩ := decodesTo_entryAddr rt e name he
    exact ⟨p, hp, by simp [findFlat_cons_decodes rt name e post he, hp, Outcome.bind]⟩
  | cons x rest ih =>
    have hx := hpre x (List.mem_cons_self _ _)
    obtain ⟨p, hp, hf⟩ := ih fun y hy => hpre y (List.mem_cons_of_mem _ hy)
    exact ⟨p, hp, by rw [List.cons_append, findFlat_cons_skip rt name x _ hx.1 hx.2, hf]⟩

/-- A successful search stopped at the first entry that decodes to the name. -/
theorem findFlat_some (rt : Runtime) (name : String) (es : List (List Nat × functab))
    (p : Nat) (h : findFlat rt name es = .ret (some p)) :
    ∃ pre e post, es = pre ++ e :: post ∧ (∀ x ∈ pre, scans rt x ∧ ¬ decodesTo rt x name) ∧
      decodesTo rt e name ∧ entryAddr rt e = .ret p := by
  induction es with
  | nil => simp [findFlat] at h
  | cons e rest ih =>
    have hs := findFlat_cons_ret rt name e rest _ h
    by_cases hd : decodesTo rt e name
    · rw [findFlat_cons_decodes rt name e rest hd] at h
      obtain ⟨q, hq, _⟩ := decodesTo_entryAddr rt e name hd
      rw [hq] at h
      simp only [Outcome.bind, Outcome.ret.injEq, Option.some.injEq] at h
      subst h
      exact ⟨[], e, rest, rfl, by simp, hd, hq⟩
    · rw [findFlat_cons_skip rt name e rest hs hd] at h
      obtain ⟨pre, e1, post, hes, hpre, he1, hp⟩ := ih h
      refine ⟨e :: pre, e1, post, by simp [hes], ?_, he1, hp⟩
      intro x hx
      rcases List.mem_cons.1 hx with rfl | hx
      · exact ⟨hs, hd⟩
      · exact hpre x hx

/-- The search returns when every entry is scanned. -/
theorem findFlat_returns (rt : Runtime) (name : String) (es : List (List Nat × functab))
    (hs : ∀ e ∈ es, scans rt e) : ∃ r, findFlat rt name es = .ret r := by
  induction es with
  | nil => exact ⟨none, rfl⟩
  | cons e rest ih =>
    by_cases hd : decodesTo rt e name
    · obtain ⟨p, hp, _⟩ := decodesTo_entryAddr rt e name hd
      exact ⟨some p, by simp [findFlat_cons_decodes rt name e rest hd, hp, Outcome.bind]⟩
    · rw [findFlat_cons_skip rt name e rest (hs e (List.mem_cons_self _ _)) hd]
      exact ih fun x hx => hs x (List.mem_cons_of_mem _ hx)

/-- A panic of the search is the panic that left the scan of one of the
entries. -/
theorem findFlat_panic_origin (rt : Runtime) (name : String) (es : List (List Nat × functab))
    (v : PanicValue) (h : findFlat rt name es = .panic v) :
    ∃ e ∈ es, decodeName rt e = .panic v := by
  induction es with
  | nil => simp [findFlat] at h
  | cons e rest ih =>
    cases hd : decodeName rt e with
    | panic w =>
      simp only [findFlat, hd, Outcome.bind, Outcome.panic.injEq] at h
      exact ⟨e, List.mem_cons_self _ _, by rw [hd, h]⟩
    | ret r =>
      by_cases hdec : decodesTo rt e name
      · obtain ⟨p, hp, _⟩ := decodesTo_entryAddr rt e name hdec
        simp [findFlat_cons_decodes rt name e rest hdec, hp, Outcome.bind] at h
      · rw [findFlat_cons_skip rt name e rest ⟨r, hd⟩ hdec] at h
        obtain ⟨x, hx, hxv⟩ := ih h
        exact ⟨x, List.mem_cons_of_mem _ hx, hxv⟩

theorem FindFuncWithName_eq (rt : Runtime) (md : Moduledata) (name : String) :
    FindFuncWithName rt md name = (findFlat rt name md.entries).bind (findResult name) :=
  outer_eq_findFlat rt name md

end go114

namespace go114

theorem namesInner_eq_namesFlat (rt : Runtime) (pclntable : List Nat) (ftab : List functab)
    (names : List String) :
    GetAllFuncName.inner rt pclntable ftab names =
      namesFlat rt (ftab.map fun e => (pclntable, e)) names := by
  induction ftab generalizing names with
  | nil => rfl
  | cons ft rest ih =>
    simp only [GetAllFuncName.inner, List.map_cons, namesFlat, decodeName]
    cases h : funcAt pclntable ft with
    | panic v => simp [Outcome.bind]
    | ret f =>
      simp only [Outcome.bind]
      cases hg : getFuncName rt f with
      | panic v => rfl
      | ret r => simp only [ih]

theorem namesFlat_append (rt : Runtime) (xs ys : List (List Nat × functab))
    (names : List String) :
    namesFlat rt (xs ++ ys) names = (namesFlat rt xs names).bind fun l => namesFlat rt ys l := by
  induction xs generalizing names with
  | nil => simp [namesFlat, Outcome.bind]
  | cons e rest ih =>
    simp only [List.cons_append, namesFlat]
    cases hd : decodeName rt e with
    | panic v => rfl
    | ret r =>
      simp only [Outcome.bind]
      split
      · exact ih _
      · exact ih _

theorem namesOuter_eq_namesFlat (rt : Runtime) (md : Moduledata) (names : List String) :
    GetAllFuncName.outer rt md names = namesFlat rt md.entries names := by
  induction md, names using GetAllFuncName.outer.induct rt with
  | case1 pclntable ftab names =>
    simp only [GetAllFuncName.outer, Moduledata.entries, namesInner_eq_namesFlat]
  | case2 pclntable ftab next names ih =>
    simp only [GetAllFuncName.outer, Moduledata.entries, namesInner_eq_namesFlat,
      namesFlat_append]
    cases h : namesFlat rt (ftab.map fun e => (pclntable, e)) names with
    | panic v => rfl
    | ret l => simpa [Outcome.bind] using ih l

theorem GetAllFuncName_eq (rt : Runtime) (md : Moduledata) :
    GetAllFuncName rt md = namesFlat rt md.entries [] :=
  namesOuter_eq_namesFlat rt md []

theorem namesFlat_cons_decodes (rt : Runtime) (e : List Nat × functab)
    (rest : List (List Nat × functab)) (names : List String) (n : String)
    (h : decodesTo rt e n) :
    namesFlat rt (e :: rest) names = namesFlat rt rest (names ++ [n]) := by
  unfold decodesTo at h
  simp [namesFlat, h, Outcome.bind]

theorem namesFlat_cons_skip (rt : Runtime) (e : List Nat × functab)
    (rest : List (List Nat × functab)) (names : List String)
    (hs : scans rt e) (h : ∀ n, ¬ decodesTo rt e n) :
    namesFlat rt (e :: rest) names = namesFlat rt rest names := by
  obtain ⟨r, hr⟩ := hs
  have hne : ¬ r.2 = none := by
    intro h2
    apply h r.1
    unfold decodesTo
    rw [hr]
    obtain ⟨a, b⟩ := r
    simp only at h2
    subst h2
    rfl
  simp [namesFlat, hr, Outcome.bind, hne]

theorem decodesTo_unique (rt : Runtime) (e : List Nat × functab) (n m : String)
    (hn : decodesTo rt e n) (hm : decodesTo rt e m) : n = m := by
  unfold decodesTo at hn hm
  rw [hn] at hm
  simpa using hm

/-- The collection returns when every entry is scanned, and it appends exactly
the names some entry decodes to. -/
theorem namesFlat_returns (rt : Runtime) (es : List (List Nat × functab))
    (names : List String) (hs : ∀ e ∈ es, scans rt e) :
    ∃ l, namesFlat rt es names = .ret (names ++ l) ∧
      ∀ n, n ∈ l ↔ ∃ e ∈ es, decodesTo rt e n := by
  induction es generalizing names with
  | nil => exact ⟨[], by simp [namesFlat], by simp⟩
  | cons e rest ih =>
    have hrest : ∀ x ∈ rest, scans rt x := fun x hx => hs x (List.mem_cons_of_mem _ hx)
    by_cases hd : ∃ n, decodesTo rt e n
    · obtain ⟨n, hn⟩ := hd
      obtain ⟨l, hl, hmem⟩ := ih (names ++ [n]) hrest
      refine ⟨n :: l, ?_, ?_⟩
      · rw [namesFlat_cons_decodes rt e rest names n hn, hl]
        simp
      · intro m
        constructor
        · intro hm
          rcases List.mem_cons.1 hm with rfl | hm
          · exact ⟨e, List.mem_cons_self _ _, hn⟩
          · obtain ⟨x, hx, hxm⟩ := (hmem m).1 hm
            exact ⟨x, List.mem_cons_of_mem _ hx, hxm⟩
        · rintro ⟨x, hx, hxm⟩
          rcases List.mem_cons.1 hx with rfl | hx
          · rw [decodesTo_unique rt x m n hxm hn]
            exact List.mem_cons_self _ _
          · exact List.mem_cons_of_mem _ ((hmem m).2 ⟨x, hx, hxm⟩)
    · have hno : ∀ n, ¬ decodesTo rt e n := fun n hn => hd ⟨n, hn⟩
      obtain ⟨l, hl, hmem⟩ := ih names hrest
      refine ⟨l, ?_, ?_⟩
      · rw [namesFlat_cons_skip rt e rest names (hs e (List.mem_cons_self _ _)) hno, hl]
      · intro m
        constructor
        · intro hm
          obtain ⟨x, hx, hxm⟩ := (hmem m).1 hm
          exact ⟨x, List.mem_cons_of_mem _ hx, hxm⟩
        · rintro ⟨x, hx, hxm⟩
          rcases List.mem_cons.1 hx with rfl | hx
          · exact absurd hxm (hno m)
          · exact (hmem m).2 ⟨x, hx, hxm⟩

/-- A collection that returns has scanned every entry. -/
theorem namesFlat_ret_scans (rt : Runtime) (es : List (List Nat × functab))
    (names l : List String) (h : namesFlat rt es names = .ret l) : ∀ e ∈ es, scans rt e := by
  induction es generalizing names with
  | nil => simp
  | cons e rest ih =>
    cases hd : decodeName rt e with
    | panic v => simp [namesFlat, hd, Outcome.bind] at h
    | ret r =>
      intro x hx
      rcases List.mem_cons.1 hx with rfl | hx
      · exact ⟨r, hd⟩
      · simp only [namesFlat, hd, Outcome.bind] at h
        split at h
        · exact ih _ h x hx
        · exact ih _ h x hx

end go114

/-! ## Lookup by name (package go114) -/

namespace go114

/-- A lookup that returns has the claimed result whatever the entries do: a
non-nil error means that every entry was scanned and none decodes to the name,
and then the address is 0 and the error is the "Invalid function name" one; a
nil error means that some entry decodes to the name. -/
theorem FindFuncWithName_ret_sound (rt : Runtime) (md : Moduledata) (name : String)
    (p : Nat) (err : Option GoError) (h : FindFuncWithName rt md name = .ret (p, err)) :
    (err ≠ none ↔ ¬ ∃ e ∈ md.entries, decodesTo rt e name) ∧
      (err ≠ none → p = 0 ∧ err = some ("Invalid function name: " ++ name)) := by
  rw [FindFuncWithName_eq] at h
  cases hf : findFlat rt name md.entries with
  | panic v => rw [hf] at h; simp [Outcome.bind] at h
  | ret r =>
    rw [hf] at h
    cases r with
    | none =>
      simp only [Outcome.bind, findResult, Outcome.ret.injEq, Prod.mk.injEq] at h
      obtain ⟨hp, he⟩ := h
      subst hp he
      have hall := (findFlat_none_iff rt name md.entries).1 hf
      refine ⟨⟨fun _ => ?_, fun _ => by simp⟩, fun _ => ⟨rfl, rfl⟩⟩
      rintro ⟨e, he, hd⟩
      exact (hall e he).2 hd
    | some q =>
      simp only [Outcome.bind, findResult, Outcome.ret.injEq, Prod.mk.injEq] at h
      obtain ⟨hp, he⟩ := h
      subst hp he
      obtain ⟨pre, e, post, hes, _, hd, _⟩ := findFlat_some rt name md.entries q hf
      refine ⟨⟨fun hn => absurd rfl hn, fun hn => ?_⟩, fun hn => absurd rfl hn⟩
      exact absurd ⟨e, by simp [hes], hd⟩ hn

/-- The only way for a lookup not to return is a panic that left the scan of
an entry of the chain. -/
theorem FindFuncWithName_panic_origin (rt : Runtime) (md : Moduledata) (name : String)
    (v : PanicValue) (h : FindFuncWithName rt md name = .panic v) :
    ∃ e ∈ md.entries, decodeName rt e = .panic v := by
  rw [FindFuncWithName_eq] at h
  cases hf : findFlat rt name md.entries with
  | panic w =>
    rw [hf] at h
    simp only [Outcome.bind, Outcome.panic.injEq] at h
    subst h
    exact findFlat_panic_origin rt name md.entries w hf
  | ret r =>
    rw [hf] at h
    cases r <;> simp [Outcome.bind, findResult] at h

/-- C1, counterexample: the only entry of `badOffsetMd` has a `funcoff`
outside its `pclntable`; no entry decodes to "main.main", yet the call does
not return the error: it panics with the index fault. -/
theorem FindFuncWithName_not_found_panics_counterexample :
    (¬ ∃ e ∈ badOffsetMd.entries, decodesTo demoRt e "main.main") ∧
    FindFuncWithName demoRt badOffsetMd "main.main" =
      .panic (.error "runtime error: index out of range [0] with length 0") ∧
    ¬ ∃ p err, FindFuncWithName demoRt badOffsetMd "main.main" = .ret (p, some err) := by
  refine ⟨by decide, by decide, ?_⟩
  rintro ⟨p, err, h⟩
  have hp : FindFuncWithName demoRt badOffsetMd "main.main" =
      .panic (.error "runtime error: index out of range [0] with length 0") := by decide
  rw [hp] at h
  cases h

/-- C1, amended: for every module chain and every name,
`FindFuncWithName(name)` returns a non-nil error exactly when every
function-table entry of the chain is located and decoded without a panic
leaving `getFuncName` and none of them decodes to `name`; a returned non-nil
error comes with the address 0 and is "Invalid function name: " followed by
`name`. -/
theorem FindFuncWithName_error_iff_scanned_not_found (rt : Runtime) (md : Moduledata)
    (name : String) :
    ((∃ p err, FindFuncWithName rt md name = .ret (p, some err)) ↔
      ∀ e ∈ md.entries, scans rt e ∧ ¬ decodesTo rt e name) ∧
    (∀ p err, FindFuncWithName rt md name = .ret (p, some err) →
      p = 0 ∧ err = "Invalid function name: " ++ name) := by
  have key : ∀ p err, FindFuncWithName rt md name = .ret (p, some err) →
      findFlat rt name md.entries = .ret none ∧
        p = 0 ∧ err = "Invalid function name: " ++ name := by
    intro p err h
    rw [FindFuncWithName_eq] at h
    cases hf : findFlat rt name md.entries with
    | panic v => rw [hf] at h; simp [Outcome.bind] at h
    | ret r =>
      rw [hf] at h
      cases r with
      | none =>
        simp only [Outcome.bind, findResult, Outcome.ret.injEq, Prod.mk.injEq,
          Option.some.injEq] at h
        exact ⟨rfl, h.1.symm, h.2.symm⟩
      | some q => simp [Outcome.bind, findResult] at h
  refine ⟨⟨?_, ?_⟩, fun p err h => (key p err h).2⟩
  · rintro ⟨p, err, h⟩
    exact (findFlat_none_iff rt name md.entries).1 (key p err h).1
  · intro hall
    have hf := (findFlat_none_iff rt name md.entries).2 hall
    exact ⟨0, invalidName name, by rw [FindFuncWithName_eq, hf]; rfl⟩

theorem demoMd_scans : ∀ e ∈ demoMd.entries, scans demoRt e := by
  intro e he
  simp only [demoMd, Moduledata.entries, List.map_cons, List.map_nil, List.mem_cons,
    List.mem_singleton, List.not_mem_nil, or_false] at he
  rcases he with rfl | rfl | rfl <;> exact ⟨_, rfl⟩

/-- Witness for C1 (amended) on the sample image, for a name that is absent:
every entry is scanned and none decodes to the name, so the error is
returned. -/
theorem FindFuncWithName_error_iff_scanned_not_found_witness :
    (∀ e ∈ demoMd.entries,
      scans demoRt e ∧ ¬ decodesTo demoRt e "invalidpackage.invalidfunction") ∧
    FindFuncWithName demoRt demoMd "invalidpackage.invalidfunction" =
      .ret (0, some "Invalid function name: invalidpackage.invalidfunction") ∧
    ∃ p err, FindFuncWithName demoRt demoMd "invalidpackage.invalidfunction" =
      .ret (p, some err) :=
  have hall : ∀ e ∈ demoMd.entries,
      scans demoRt e ∧ ¬ decodesTo demoRt e "invalidpackage.invalidfunction" :=
    fun e he => ⟨demoMd_scans e he,
      (by decide : ∀ e ∈ demoMd.entries,
        ¬ decodesTo demoRt e "invalidpackage.invalidfunction") e he⟩
  ⟨hall, by decide,
    (FindFuncWithName_error_iff_scanned_not_found demoRt demoMd
      "invalidpackage.invalidfunction").1.2 hall⟩

/-- C3, counterexample: in `earlyFaultMd` the second entry decodes to
"main.main", but the first has a `funcoff` outside the `pclntable`, and the
call panics with the index fault before it reaches the second. -/
theorem FindFuncWithName_found_panics_counterexample :
    (∃ e ∈ earlyFaultMd.entries, decodesTo demoRt e "main.main") ∧
    FindFuncWithName demoRt earlyFaultMd "main.main" =
      .panic (.error "runtime error: index out of range [9999] with length 4") := by
  decide

/-- C3, amended: for every name that some entry decodes to, when every entry
before the first entry that decodes to `name` (in module order and, within a
module, in function-table order) is located and decoded without a panic
leaving `getFuncName`, `FindFuncWithName(name)` returns a nil error and the
`Entry()` address of the function record of that first entry; entries after
it are not looked at. -/
theorem FindFuncWithName_first_match (rt : Runtime) (md : Moduledata) (name : String)
    (pre post : List (List Nat × functab)) (e : List Nat × functab)
    (hes : md.entries = pre ++ e :: post)
    (hpre : ∀ x ∈ pre, scans rt x ∧ ¬ decodesTo rt x name) (he : decodesTo rt e name) :
    ∃ p, entryAddr rt e = .ret p ∧ FindFuncWithName rt md name = .ret (p, none) := by
  obtain ⟨p, hp, hf⟩ := findFlat_first rt name pre post e hpre he
  refine ⟨p, hp, ?_⟩
  rw [FindFuncWithName_eq, hes, hf]
  rfl

/-- Witness for C3 (amended): in `lateFaultMd` the second entry is the first
to decode to "main.addOne", and the faulty third entry does not matter. -/
theorem FindFuncWithName_first_match_witness :
    FindFuncWithName demoRt lateFaultMd "main.addOne" = .ret (116, none) ∧
    ∃ p, entryAddr demoRt (demoPcln, ⟨116, 1⟩) = .ret p ∧
      FindFuncWithName demoRt lateFaultMd "main.addOne" = .ret (p, none) :=
  ⟨by decide,
    FindFuncWithName_first_match demoRt lateFaultMd "main.addOne"
      [(demoPcln, ⟨100, 0⟩)] [(demoPcln, ⟨100, 9999⟩)] (demoPcln, ⟨116, 1⟩)
      (by decide)
      (by
        intro x hx
        rw [List.mem_singleton] at hx
        subst hx
        exact ⟨⟨_, rfl⟩, by decide⟩)
      (by decide)⟩

/-- C10, counterexample: in `lateFaultMd` the first entry decodes to
"main.main" and `FindFuncWithName` returns it with a nil error, while
`GetAllFuncName` panics at the faulty last entry and has no result. -/
theorem GetAllFuncName_panics_counterexample :
    FindFuncWithName demoRt lateFaultMd "main.main" = .ret (100, none) ∧
    GetAllFuncName demoRt lateFaultMd =
      .panic (.error "runtime error: index out of range [9999] with length 4") := by
  decide

/-- C10, amended: `GetAllFuncName()` always terminates, and it returns a
result exactly when every function-table entry of the chain is located and
decoded without a panic leaving `getFuncName`; whenever it returns, for every
name `FindFuncWithName(name)` returns a nil error if and only if `name` is an
element of the result. -/
theorem GetAllFuncName_mem_iff_found (rt : Runtime) (md : Moduledata) :
    ((∃ names, GetAllFuncName rt md = .ret names) ↔ ∀ e ∈ md.entries, scans rt e) ∧
    (∀ names, GetAllFuncName rt md = .ret names →
      ∀ name, (∃ p, FindFuncWithName rt md name = .ret (p, none)) ↔ name ∈ names) := by
  have hret : (∀ e ∈ md.entries, scans rt e) → ∃ names, GetAllFuncName rt md = .ret names := by
    intro hscan
    obtain ⟨l, hl, _⟩ := namesFlat_returns rt md.entries [] hscan
    exact ⟨l, by simpa [GetAllFuncName_eq] using hl⟩
  have hscans : ∀ names, GetAllFuncName rt md = .ret names → ∀ e ∈ md.entries, scans rt e := by
    intro names h
    rw [GetAllFuncName_eq] at h
    exact namesFlat_ret_scans rt md.entries [] names h
  refine ⟨⟨fun ⟨names, h⟩ => hscans names h, hret⟩, fun names h name => ?_⟩
  have hscan := hscans names h
  obtain ⟨l, hl, hmem⟩ := namesFlat_returns rt md.entries [] hscan
  rw [GetAllFuncName_eq] at h
  rw [h] at hl
  simp only [List.nil_append, Outcome.ret.injEq] at hl
  subst hl
  rw [hmem name]
  constructor
  · rintro ⟨p, hp⟩
    have hs := (FindFuncWithName_ret_sound rt md name p none hp).1
    by_contra hno
    exact absurd rfl (hs.2 hno)
  · rintro ⟨e, he, hd⟩
    obtain ⟨r, hr⟩ := findFlat_returns rt name md.entries hscan
    cases r with
    | none => exact absurd hd ((findFlat_none_iff rt name md.entries).1 hr e he).2
    | some p => exact ⟨p, by rw [FindFuncWithName_eq, hr]; rfl⟩

/-- Witness for C10 (amended) on the sample image. -/
theorem GetAllFuncName_mem_iff_found_witness :
    GetAllFuncName demoRt demoMd = .ret ["main.main", "main.addOne", ""] ∧
    (∃ names, GetAllFuncName demoRt demoMd = .ret names) ∧
    ((∃ p, FindFuncWithName demoRt demoMd "main.addOne" = .ret (p, none)) ↔
      "main.addOne" ∈ ["main.main", "main.addOne", ""]) :=
  ⟨by decide, (GetAllFuncName_mem_iff_found demoRt demoMd).1.2 demoMd_scans,
    (GetAllFuncName_mem_iff_found demoRt demoMd).2 _ (by decide) "main.addOne"⟩

end go114

/-! ## Rebinding (package go114) -/

namespace go114

theorem CreateFuncForCodePtr_eq (rt : Runtime) (mem : Mem) (v codePtr : Nat) (x : FuncVar)
    (hx : mem.vars[v]? = some x) :
    CreateFuncForCodePtr rt mem (.funcVar v) codePtr =
      (.ret (), { heap := mem.heap ++ [{ codePtr := codePtr, ftyp := x.typ }],
                  vars := mem.vars.set v { x with val := some mem.heap.length } }) := by
  have hv : v < mem.vars.length := by
    rcases Nat.lt_or_ge v mem.vars.length with h | h
    · exact h
    · rw [List.getElem?_eq_none h] at hx; cases hx
  simp [CreateFuncForCodePtr, reflect.Elem, hv, reflect.MakeFunc, reflect.typeOf, hx,
    setCodePtr, reflect.Set]

/-- A call of `CreateFuncForCodePtr` never returns with the memory as it was:
it panics or it has allocated a function object. -/
theorem CreateFuncForCodePtr_ne (rt : Runtime) (mem : Mem) (outFuncPtr : Interface)
    (codePtr : Nat) : CreateFuncForCodePtr rt mem outFuncPtr codePtr ≠ (.ret (), mem) := by
  cases outFuncPtr with
  | other kind => simp [CreateFuncForCodePtr, reflect.Elem]
  | nonFuncVar => simp [CreateFuncForCodePtr, reflect.Elem]
  | funcVar v =>
    by_cases hv : v < mem.vars.length
    · have hx : mem.vars[v]? = some (mem.vars[v]) := List.getElem?_eq_getElem hv
      rw [CreateFuncForCodePtr_eq rt mem v codePtr _ hx]
      intro h
      have hh := congrArg (fun r => r.2.heap.length) h
      simp at hh
    · simp [CreateFuncForCodePtr, reflect.Elem, hv]

/-- C2: for every name that `FindFuncWithName` does not find (it returns a
non-nil error), `GetFunc(outFuncPtr, name)` returns that error and leaves the
memory, the function variable behind `outFuncPtr` included, exactly as it was;
no call of `CreateFuncForCodePtr` could have produced that outcome. -/
theorem GetFunc_not_found_keeps_memory (rt : Runtime) (md : Moduledata) (mem : Mem)
    (outFuncPtr : Interface) (name : String) (p : Nat) (e : GoError)
    (h : FindFuncWithName rt md name = .ret (p, some e)) :
    GetFunc rt md mem outFuncPtr name = (.ret (some e), mem) ∧
      ∀ codePtr, CreateFuncForCodePtr rt mem outFuncPtr codePtr ≠ (.ret (), mem) := by
  refine ⟨?_, fun codePtr => CreateFuncForCodePtr_ne rt mem outFuncPtr codePtr⟩
  simp [GetFunc, h]

/-- Witness for C2: the scenario of `TestInvalidFunc`, the nil variable stays
nil. -/
theorem GetFunc_not_found_keeps_memory_witness :
    FindFuncWithName demoRt demoMd "invalidpackage.invalidfunction" =
      .ret (0, some "Invalid function name: invalidpackage.invalidfunction") ∧
    (GetFunc demoRt demoMd demoMem (.funcVar 0) "invalidpackage.invalidfunction" =
      (.ret (some "Invalid function name: invalidpackage.invalidfunction"), demoMem) ∧
      ∀ codePtr, CreateFuncForCodePtr demoRt demoMem (.funcVar 0) codePtr ≠ (.ret (), demoMem)) :=
  ⟨by decide,
    GetFunc_not_found_keeps_memory demoRt demoMd demoMem (.funcVar 0)
      "invalidpackage.invalidfunction" 0 _ (by decide)⟩

/-- C9: for a pointer to the function variable `v` and every `codePtr`,
`CreateFuncForCodePtr` returns, and afterwards the variable points to a
function object at an address that was not in use before, of the variable's
own function type and with code pointer `codePtr`; the variable keeps its
type, every function object that existed before is unchanged, and so is every
other variable. -/
theorem CreateFuncForCodePtr_fresh_value (rt : Runtime) (mem : Mem) (v codePtr : Nat)
    (x : FuncVar) (hx : mem.vars[v]? = some x) :
    ∃ mem1, CreateFuncForCodePtr rt mem (.funcVar v) codePtr = (.ret (), mem1) ∧
      mem1.vars[v]? = some { typ := x.typ, val := some mem.heap.length } ∧
      mem.heap[mem.heap.length]? = none ∧
      mem1.heap[mem.heap.length]? = some { codePtr := codePtr, ftyp := x.typ } ∧
      mem1.heap.length = mem.heap.length + 1 ∧
      (∀ a, a < mem.heap.length → mem1.heap[a]? = mem.heap[a]?) ∧
      mem1.vars.length = mem.vars.length ∧
      (∀ w, w ≠ v → mem1.vars[w]? = mem.vars[w]?) := by
  have hv : v < mem.vars.length := by
    rcases Nat.lt_or_ge v mem.vars.length with h | h
    · exact h
    · rw [List.getElem?_eq_none h] at hx; cases hx
  refine ⟨_, CreateFuncForCodePtr_eq rt mem v codePtr x hx, ?_, ?_, ?_, ?_, ?_, ?_, ?_⟩
  · simp [hv]
  · simp
  · simp
  · simp
  · intro a ha
    simp [List.getElem?_append_left ha]
  · simp
  · intro w hw
    simp [List.getElem?_set, Ne.symm hw]

/-- Witness for C9: rebinding the variable that already holds a function
value. -/
theorem CreateFuncForCodePtr_fresh_value_witness :
    demoMem.vars[1]? = some { typ := "func(int) int", val := some 0 } ∧
    CreateFuncForCodePtr demoRt demoMem (.funcVar 1) 100 =
      (.ret (), { heap := [{ codePtr := 116, ftyp := "func(int) int" },
                           { codePtr := 100, ftyp := "func(int) int" }],
                  vars := [{ typ := "func(int) int", val := none },
                           { typ := "func(int) int", val := some 1 }] }) ∧
    ∃ mem1, CreateFuncForCodePtr demoRt demoMem (.funcVar 1) 100 = (.ret (), mem1) ∧
      mem1.vars[1]? = some { typ := "func(int) int", val := some demoMem.heap.length } ∧
      demoMem.heap[demoMem.heap.length]? = none ∧
      mem1.heap[demoMem.heap.length]? = some { codePtr := 100, ftyp := "func(int) int" } ∧
      mem1.heap.length = demoMem.heap.length + 1 ∧
      (∀ a, a < demoMem.heap.length → mem1.heap[a]? = demoMem.heap[a]?) ∧
      mem1.vars.length = demoMem.vars.length ∧
      (∀ w, w ≠ 1 → mem1.vars[w]? = demoMem.vars[w]?) :=
  ⟨by decide, by decide,
    CreateFuncForCodePtr_fresh_value demoRt demoMem 1 100
      { typ := "func(int) int", val := some 0 } (by decide)⟩

end go114

/-! ## Round trip between name and address -/

namespace go114

theorem FindFuncWithName_found_lookup (rt : Runtime) (md : Moduledata) (name : String) (p : Nat)
    (h : FindFuncWithName rt md name = .ret (p, none)) :
    ((rt.FuncForPC p).bind fun g => rt.Name g) = .ret name := by
  rw [FindFuncWithName_eq] at h
  cases hf : findFlat rt name md.entries with
  | panic v => rw [hf] at h; simp [Outcome.bind] at h
  | ret r =>
    rw [hf] at h
    cases r with
    | none => simp [Outcome.bind, findResult] at h
    | some q =>
      simp only [Outcome.bind, findResult, Outcome.ret.injEq, Prod.mk.injEq, and_true] at h
      subst h
      obtain ⟨_, e, _, _, _, hd, hq⟩ := findFlat_some rt name md.entries q hf
      obtain ⟨q1, hq1, hn⟩ := decodesTo_entryAddr rt e name hd
      rw [hq] at hq1
      cases hq1
      exact hn

theorem FuncName_frame (rt : Runtime) (mem mem1 : Mem) (original : Option Nat) (name : String)
    (hframe : ∀ a, a < mem.heap.length → mem1.heap[a]? = mem.heap[a]?)
    (h : forceexport.FuncName rt mem original = .ret name) :
    forceexport.FuncName rt mem1 original = .ret name := by
  cases original with
  | none => exact h
  | some b =>
    by_cases hb : b < mem.heap.length
    · rw [← h]
      simp only [forceexport.FuncName, reflect.Pointer, hframe b hb]
    · have hnone : mem.heap[b]? = none := List.getElem?_eq_none (Nat.le_of_not_lt hb)
      simp [forceexport.FuncName, reflect.Pointer, hnone, Outcome.bind] at h

/-- C4: if `FindFuncWithName(name)` returns `(p, nil)`, the reverse lookup
`runtime.FuncForPC(p).Name()` returns `name`; hence, for a pointer to a
function variable, `GetFunc` returns nil and the function value it stores
reports `name` under `FuncName`, the same name as any original function value
that reports `name`. -/
theorem FindFuncWithName_round_trip (rt : Runtime) (md : Moduledata) (name : String) (p : Nat)
    (h : FindFuncWithName rt md name = .ret (p, none)) :
    ((rt.FuncForPC p).bind fun g => rt.Name g) = .ret name ∧
    ∀ (mem : Mem) (v : Nat) (x : FuncVar), mem.vars[v]? = some x →
      ∃ mem1 rebound, GetFunc rt md mem (.funcVar v) name = (.ret none, mem1) ∧
        mem1.vars[v]? = some { typ := x.typ, val := rebound } ∧
        forceexport.FuncName rt mem1 rebound = .ret name ∧
        ∀ original, forceexport.FuncName rt mem original = .ret name →
          forceexport.FuncName rt mem1 rebound = forceexport.FuncName rt mem1 original := by
  have hlook := FindFuncWithName_found_lookup rt md name p h
  refine ⟨hlook, fun mem v x hx => ?_⟩
  have hv : v < mem.vars.length := by
    rcases Nat.lt_or_ge v mem.vars.length with hlt | hge
    · exact hlt
    · rw [List.getElem?_eq_none hge] at hx; cases hx
  have hreb : forceexport.FuncName rt
      { heap := mem.heap ++ [{ codePtr := p, ftyp := x.typ }],
        vars := mem.vars.set v { x with val := some mem.heap.length } }
      (some mem.heap.length) = .ret name := by
    simp only [forceexport.FuncName, reflect.Pointer]
    simpa [Outcome.bind] using hlook
  refine ⟨_, some mem.heap.length, ?_, ?_, hreb, fun original ho => ?_⟩
  · simp [GetFunc, h, CreateFuncForCodePtr_eq rt mem v p x hx]
  · simp [hv]
  · rw [hreb]
    refine (FuncName_frame rt mem _ original name ?_ ho).symm
    intro a ha
    simp [List.getElem?_append_left ha]

/-- Witness for C4 on the sample image: `main.addOne` is rebound into the nil
variable, and the function value of the other variable is the original. -/
theorem FindFuncWithName_round_trip_witness :
    FindFuncWithName demoRt demoMd "main.addOne" = .ret (116, none) ∧
    (((demoRt.FuncForPC 116).bind fun g => demoRt.Name g) = .ret "main.addOne" ∧
    ∀ (mem : Mem) (v : Nat) (x : FuncVar), mem.vars[v]? = some x →
      ∃ mem1 rebound, GetFunc demoRt demoMd mem (.funcVar v) "main.addOne" = (.ret none, mem1) ∧
        mem1.vars[v]? = some { typ := x.typ, val := rebound } ∧
        forceexport.FuncName demoRt mem1 rebound = .ret "main.addOne" ∧
        ∀ original, forceexport.FuncName demoRt mem original = .ret "main.addOne" →
          forceexport.FuncName demoRt mem1 rebound =
            forceexport.FuncName demoRt mem1 original) ∧
    forceexport.FuncName demoRt demoMem (some 0) = .ret "main.addOne" :=
  ⟨by decide, FindFuncWithName_round_trip demoRt demoMd "main.addOne" 116 (by decide),
    by decide⟩

end go114

/-! ## The fault guard of `getFuncName` -/

namespace go114

theorem scans_of_guarded (rt : Runtime) (e : List Nat × functab)
    (hoff : e.2.funcoff < e.1.length)
    (hval : ∀ f v, getFuncName.body rt f ≠ .panic (.other v)) : scans rt e := by
  unfold scans decodeName
  simp only [funcAt, hoff, if_true, Outcome.bind]
  unfold getFuncName
  cases hb : getFuncName.body rt ⟨e.1, e.2.funcoff⟩ with
  | ret n => exact ⟨_, rfl⟩
  | panic v =>
    cases v with
    | error err => exact ⟨_, rfl⟩
    | other s => exact absurd hb (hval _ _)

/-- C5, counterexample: a scan can panic. A panic raised during decoding with
a value that is not an `error` is answered by the guard with
`panic("unexpect")`, and an index fault raised while locating the function
record happens outside the guard; both leave `FindFuncWithName` and
`GetAllFuncName`. -/
theorem scan_panics_counterexample :
    FindFuncWithName stringPanicRt demoMd "main.main" = .panic (.other "unexpect") ∧
    GetAllFuncName stringPanicRt demoMd = .panic (.other "unexpect") ∧
    FindFuncWithName demoRt badOffsetMd "main.main" =
      .panic (.error "runtime error: index out of range [0] with length 0") ∧
    GetAllFuncName demoRt badOffsetMd =
      .panic (.error "runtime error: index out of range [0] with length 0") := by
  decide

/-- C5, amended: when every `funcoff` of the chain indexes inside its
`pclntable` and decoding raises no panic whose value is not an `error`, a full
scan by `FindFuncWithName` (for every name) or `GetAllFuncName` returns; every
panic with an `error` value raised while decoding is turned by the guard into
a decode failure (empty name, that error), and an entry with a decode failure
is skipped, the scan going on with the next entry. -/
theorem scan_returns_when_guarded (rt : Runtime) (md : Moduledata)
    (hoff : ∀ e ∈ md.entries, e.2.funcoff < e.1.length)
    (hval : ∀ f v, getFuncName.body rt f ≠ .panic (.other v)) :
    (∀ name, ∃ r, FindFuncWithName rt md name = .ret r) ∧
    (∃ names, GetAllFuncName rt md = .ret names) ∧
    (∀ f err, getFuncName.body rt f = .panic (.error err) →
      getFuncName rt f = .ret ("", some err)) ∧
    (∀ pclntable ftab rest name n err,
      decodeName rt (pclntable, ftab) = .ret (n, some err) →
      FindFuncWithName.inner rt pclntable name (ftab :: rest) =
        FindFuncWithName.inner rt pclntable name rest ∧
      ∀ names, GetAllFuncName.inner rt pclntable (ftab :: rest) names =
        GetAllFuncName.inner rt pclntable rest names) := by
  have hscan : ∀ e ∈ md.entries, scans rt e := fun e he => scans_of_guarded rt e (hoff e he) hval
  refine ⟨fun name => ?_, ?_, ?_, ?_⟩
  · obtain ⟨r, hr⟩ := findFlat_returns rt name md.entries hscan
    rw [FindFuncWithName_eq, hr]
    cases r with
    | none => exact ⟨_, rfl⟩
    | some q => exact ⟨_, rfl⟩
  · obtain ⟨l, hl, _⟩ := namesFlat_returns rt md.entries [] hscan
    exact ⟨l, by simpa [GetAllFuncName_eq] using hl⟩
  · intro f err hb
    simp [getFuncName, hb]
  · intro pclntable ftab rest name n err hd
    unfold decodeName at hd
    simp only at hd
    cases hf : funcAt pclntable ftab with
    | panic v => rw [hf] at hd; simp [Outcome.bind] at hd
    | ret f =>
      rw [hf] at hd
      simp only [Outcome.bind] at hd
      constructor
      · simp [FindFuncWithName.inner, hf, hd, Outcome.bind]
      · intro names
        simp [GetAllFuncName.inner, hf, hd, Outcome.bind]

theorem segvRt_guarded : ∀ f v, getFuncName.body segvRt f ≠ .panic (.other v) := by
  intro f v
  simp only [getFuncName.body, segvRt, demoRt]
  by_cases h0 : f.off = 0
  · simp [h0, Outcome.bind]
  · by_cases h1 : f.off = 1
    · simp [h1, Outcome.bind, Runtime.Name]
    · simp [h0, h1, Outcome.bind, Runtime.Name]

/-- Witness for C5 (amended): reading the first record faults with a runtime
error, the entry is skipped and the scan goes on. -/
theorem scan_returns_when_guarded_witness :
    getFuncName segvRt ⟨demoPcln, 0⟩ =
      .ret ("", some "runtime error: invalid memory address or nil pointer dereference") ∧
    FindFuncWithName segvRt demoMd "main.addOne" = .ret (116, none) ∧
    GetAllFuncName segvRt demoMd = .ret ["main.addOne", ""] ∧
    ∃ r, FindFuncWithName segvRt demoMd "main.main" = .ret r :=
  ⟨by decide, by decide, by decide,
    (scan_returns_when_guarded segvRt demoMd (by decide) segvRt_guarded).1 "main.main"⟩

end go114

/-! ## The sentinel entry -/

namespace go114

theorem GetAllFuncName_ret_mem (rt : Runtime) (md : Moduledata) (names : List String)
    (h : GetAllFuncName rt md = .ret names) (n : String) :
    n ∈ names ↔ ∃ e ∈ md.entries, decodesTo rt e n := by
  rw [GetAllFuncName_eq] at h
  have hscan := namesFlat_ret_scans rt md.entries [] names h
  obtain ⟨l, hl, hmem⟩ := namesFlat_returns rt md.entries [] hscan
  rw [h] at hl
  simp only [List.nil_append, Outcome.ret.injEq] at hl
  subst hl
  exact hmem n

/-- C6, counterexample: the last entry of the sample module has an entry
address for which `FuncForPC` returns a nil `*Func`, and `getFuncName` returns
the empty name with a nil error for it; the entry contributes the empty name
to `GetAllFuncName`, and `FindFuncWithName("")` returns its address. -/
theorem sentinel_not_skipped_counterexample :
    funcAt demoSentinel.1 demoSentinel.2 = .ret ⟨demoPcln, 3⟩ ∧
    demoRt.Entry ⟨demoPcln, 3⟩ = .ret 132 ∧
    demoRt.FuncForPC 132 = .ret none ∧
    getFuncName demoRt ⟨demoPcln, 3⟩ = .ret ("", none) ∧
    GetAllFuncName demoRt demoMd = .ret ["main.main", "main.addOne", ""] ∧
    FindFuncWithName demoRt demoMd "" = .ret (132, none) := by
  decide

/-- C6, amended: for every function-table entry whose function record is
located and whose entry address has no module (so that `runtime.FuncForPC`
returns a nil `*Func`), `getFuncName` returns the empty name with a nil error,
neither a fault nor a decode failure. The entry decodes to the empty name and
to no other name: whenever `GetAllFuncName` returns, its result contains the
empty name, and whenever `FindFuncWithName` returns a nil error for a
non-empty name, the address is the `Entry()` of another entry, which decodes
to that name. -/
theorem sentinel_decodes_to_empty_name (rt : Runtime) (e : List Nat × functab) (f : FuncPtr)
    (pc : Nat) (hf : funcAt e.1 e.2 = .ret f) (hpc : rt.Entry f = .ret pc)
    (hnil : rt.FuncForPC pc = .ret none) :
    getFuncName rt f = .ret ("", none) ∧
    (∀ name, decodesTo rt e name ↔ name = "") ∧
    (∀ md names, e ∈ md.entries → GetAllFuncName rt md = .ret names → "" ∈ names) ∧
    (∀ md name p, name ≠ "" → FindFuncWithName rt md name = .ret (p, none) →
      ∃ x ∈ md.entries, x ≠ e ∧ decodesTo rt x name ∧ entryAddr rt x = .ret p) := by
  have hg : getFuncName rt f = .ret ("", none) := by
    simp [getFuncName, getFuncName.body, hpc, hnil, Outcome.bind, Runtime.Name]
  have hd : decodesTo rt e "" := (decodesTo_iff rt e "").2 ⟨f, hf, hg⟩
  refine ⟨hg, fun name => ⟨fun h => decodesTo_unique rt e name "" h hd, fun h => h ▸ hd⟩,
    ?_, ?_⟩
  · intro md names he h
    exact (GetAllFuncName_ret_mem rt md names h "").2 ⟨e, he, hd⟩
  · intro md name p hne h
    rw [FindFuncWithName_eq] at h
    cases hfl : findFlat rt name md.entries with
    | panic v => rw [hfl] at h; simp [Outcome.bind] at h
    | ret r =>
      rw [hfl] at h
      cases r with
      | none => simp [Outcome.bind, findResult] at h
      | some q =>
        simp only [Outcome.bind, findResult, Outcome.ret.injEq, Prod.mk.injEq, and_true] at h
        subst h
        obtain ⟨pre, x, post, hes, _, hx, hq⟩ := findFlat_some rt name md.entries q hfl
        refine ⟨x, by simp [hes], ?_, hx, hq⟩
        intro hxe
        subst hxe
        exact hne (decodesTo_unique rt x name "" hx hd)

/-- Witness for C6 (amended) on the sentinel of the sample module. -/
theorem sentinel_decodes_to_empty_name_witness :
    getFuncName demoRt ⟨demoPcln, 3⟩ = .ret ("", none) ∧
    (∀ name, decodesTo demoRt demoSentinel name ↔ name = "") ∧
    ∃ x ∈ demoMd.entries, x ≠ demoSentinel ∧ decodesTo demoRt x "main.addOne" ∧
      entryAddr demoRt x = .ret 116 :=
  have h := sentinel_decodes_to_empty_name demoRt demoSentinel ⟨demoPcln, 3⟩ 132
    (by decide) (by decide) (by decide)
  ⟨h.1, h.2.1, h.2.2.2 demoMd "main.addOne" 116 (by decide) (by decide)⟩

end go114

/-! ## The dispatcher -/

namespace forceexport

/-- C7: for every `GoVersion` other than "go1.14", "go1.15" and "go1.16", each
of the dispatcher's `GetFunc`, `CreateFuncForCodePtr` and `FindFuncWithName`
panics with the string "Not suitable for " followed by `GoVersion`, for every
argument, whatever the per-revision implementations would do, and with the
memory unchanged. -/
theorem dispatcher_unsupported_panics (GoVersion : String) (rt : Runtime)
    (md : go114.Moduledata) (go116 : Package) (mem : Mem) (outFuncPtr : Interface)
    (name : String) (codePtr : Nat)
    (h14 : GoVersion ≠ "go1.14") (h15 : GoVersion ≠ "go1.15") (h16 : GoVersion ≠ "go1.16") :
    GetFunc GoVersion rt md go116 mem outFuncPtr name =
      (.panic (.other ("Not suitable for " ++ GoVersion)), mem) ∧
    CreateFuncForCodePtr GoVersion rt go116 mem outFuncPtr codePtr =
      (.panic (.other ("Not suitable for " ++ GoVersion)), mem) ∧
    FindFuncWithName GoVersion rt md go116 name =
      .panic (.other ("Not suitable for " ++ GoVersion)) := by
  simp [GetFunc, CreateFuncForCodePtr, FindFuncWithName, h14, h15, h16]

/-- Witness for C7: the empty version string. -/
theorem dispatcher_unsupported_panics_witness :
    GetFunc "" go114.demoRt go114.demoMd stub116 go114.demoMem (.funcVar 0) "main.main" =
      (.panic (.other ("Not suitable for " ++ "")), go114.demoMem) ∧
    CreateFuncForCodePtr "" go114.demoRt stub116 go114.demoMem (.funcVar 0) 100 =
      (.panic (.other ("Not suitable for " ++ "")), go114.demoMem) ∧
    FindFuncWithName "" go114.demoRt go114.demoMd stub116 "main.main" =
      .panic (.other ("Not suitable for " ++ "")) :=
  dispatcher_unsupported_panics "" go114.demoRt go114.demoMd stub116 go114.demoMem
    (.funcVar 0) "main.main" 100 (by decide) (by decide) (by decide)

/-- C8: with `GoVersion` "go1.14" or "go1.15" the dispatcher's `GetFunc`,
`CreateFuncForCodePtr` and `FindFuncWithName` return exactly what the go114
operations return on the same arguments (result and memory), so both
revisions behave alike; with "go1.16" they return exactly what the go116
operations return. -/
theorem dispatcher_forwards (rt : Runtime) (md : go114.Moduledata) (go116 : Package)
    (mem : Mem) (outFuncPtr : Interface) (name : String) (codePtr : Nat) :
    (GetFunc "go1.14" rt md go116 mem outFuncPtr name =
        go114.GetFunc rt md mem outFuncPtr name ∧
      CreateFuncForCodePtr "go1.14" rt go116 mem outFuncPtr codePtr =
        go114.CreateFuncForCodePtr rt mem outFuncPtr codePtr ∧
      FindFuncWithName "go1.14" rt md go116 name = go114.FindFuncWithName rt md name) ∧
    (GetFunc "go1.15" rt md go116 mem outFuncPtr name =
        go114.GetFunc rt md mem outFuncPtr name ∧
      CreateFuncForCodePtr "go1.15" rt go116 mem outFuncPtr codePtr =
        go114.CreateFuncForCodePtr rt mem outFuncPtr codePtr ∧
      FindFuncWithName "go1.15" rt md go116 name = go114.FindFuncWithName rt md name) ∧
    (GetFunc "go1.16" rt md go116 mem outFuncPtr name = go116.GetFunc mem outFuncPtr name ∧
      CreateFuncForCodePtr "go1.16" rt go116 mem outFuncPtr codePtr =
        go116.CreateFuncForCodePtr mem outFuncPtr codePtr ∧
      FindFuncWithName "go1.16" rt md go116 name = go116.FindFuncWithName name) := by
  simp [GetFunc, CreateFuncForCodePtr, FindFuncWithName]

end forceexport
